import Mathlib

/-!
Shallow embedding of the optimistic state-reconciliation core of the
smart-shopping-list application.

The embedded code lives in:
* `src/app/components/ListsContainer.tsx` — the list-of-lists optimistic
  store (`optimisticLists` reducer) and the list-level mutation
  coordinators (`handleCreateList`, `handleConfirmRename`,
  `handleConfirmDelete`, `handleConfirmLeave`);
* `src/app/components/ShoppingList.tsx` — the per-list items store
  (`optimisticItems` reducer) and the item-level coordinators;
* `ShareListForm.tsx` — the shared-users store
  (`optimisticSharedWith` reducer) and the invite/revoke coordinators;
* `src/app/actions.ts` — the authoritative `renameList` server action.

JavaScript arrays become `List`, string ids become `String`, nullable
fields become `Option`, the string-tagged action objects become closed
inductive types, and each reducer becomes a pure `state → action → state`
function.  Asynchronous coordinators become pure functions of the
pre-state and the (already resolved) authoritative outcome, returning the
post-state together with the number of user-visible failure notices
(`toast.error` / `alert`) they raise.
-/

namespace ShopSpec

/-- `SharedUser` from `ListsContainer.tsx` / `ShareListForm.tsx`:
`{ id: string; name: string | null; email: string | null }`. -/
structure SharedUser where
  id : String
  name : Option String
  email : Option String
deriving DecidableEq, Repr

/-- `ListOwner` from `ListsContainer.tsx`:
`{ name: string | null; email: string }`. -/
structure ListOwner where
  name : Option String
  email : String
deriving DecidableEq, Repr

/-- `Item` from `ShoppingList.tsx`:
`{ id: string; name: string; isCompleted: boolean }`. -/
structure Item where
  id : String
  name : String
  isCompleted : Bool
deriving DecidableEq, Repr

/-- `ShoppingListData` from `ListsContainer.tsx`: full list record with
nested items and shared users. -/
structure ShoppingListData where
  id : String
  title : String
  ownerId : String
  owner : ListOwner
  items : List Item
  sharedWith : List SharedUser
deriving DecidableEq, Repr

/-- JavaScript `s || d` on strings: the empty string is falsy, and an
absent (`undefined`) string is falsy as well. -/
def jsOrString (s : Option String) (d : String) : String :=
  match s with
  | none => d
  | some v => if v = "" then d else v

/-- JavaScript `String.prototype.trim()`: strip whitespace from both
ends, embedded as structural recursion over the character data (the
library's `String.trim` is defined by well-founded recursion on byte
positions, which the kernel cannot evaluate on witnesses). -/
def jsTrim (s : String) : String :=
  ⟨((s.data.dropWhile Char.isWhitespace).reverse.dropWhile
      Char.isWhitespace).reverse⟩

/-- JavaScript `array.splice(i, 0, a)`: insert `a` before index `i`,
clamping `i` to the array length (an out-of-range index appends). -/
def insertAt (n : Nat) (a : α) : List α → List α
  | [] => [a]
  | x :: xs =>
    match n with
    | 0 => a :: x :: xs
    | Nat.succ m => x :: insertAt m a xs

/-- JavaScript `array.findIndex(p)`, with `-1` modelled as `none`. -/
def jsFindIndex (p : α → Prop) [DecidablePred p] : List α → Option Nat
  | [] => none
  | x :: xs => if p x then some 0 else (jsFindIndex p xs).map (· + 1)

/-- Actions of the `optimisticLists` reducer in `ListsContainer.tsx`.
The source carries optional `listId` / `list` payload fields guarded by
`!list || !listId` checks; the closed variants carry exactly the payloads
those guards require. -/
inductive ListAction where
  | add (list : ShoppingListData)
  | delete (listId : String)
  | restore (listId : String) (list : ShoppingListData)
  | replace (listId : String) (list : ShoppingListData)
  | rename (listId : String) (list : ShoppingListData)

/-- The `optimisticLists` reducer of `ListsContainer.tsx`.  `allLists` is
the authoritative snapshot captured by the closure (used by `restore` to
find the original index). -/
def optimisticListsReducer (allLists : List ShoppingListData)
    (state : List ShoppingListData) : ListAction → List ShoppingListData
  | .add list =>
    if ∃ x ∈ state, x.id = list.id then state
    else list :: state
  | .delete listId =>
    state.filter fun x => x.id ≠ listId
  | .restore listId list =>
    if ∃ x ∈ state, x.id = list.id then state
    else
      match jsFindIndex (fun x => x.id = listId) allLists with
      | none => state ++ [list]
      | some originalIndex => insertAt originalIndex list state
  | .replace listId list =>
    state.map fun x => if x.id = listId then list else x
  | .rename listId list =>
    state.map fun x => if x.id = listId then { x with title := list.title } else x

/-- Actions of the `optimisticItems` reducer in `ShoppingList.tsx`. -/
inductive ItemAction where
  | toggle (itemId : String)
  | delete (itemId : String)
  | add (itemId : String) (itemName : Option String)
  | rename (itemId : String) (itemName : Option String)

/-- The `optimisticItems` reducer of `ShoppingList.tsx`.  Note that
`add` appends unconditionally: unlike the lists reducer it has no
duplicate-id guard. -/
def optimisticItemsReducer (state : List Item) : ItemAction → List Item
  | .toggle itemId =>
    state.map fun it =>
      if it.id = itemId then { it with isCompleted := !it.isCompleted } else it
  | .delete itemId =>
    state.filter fun it => it.id ≠ itemId
  | .add itemId itemName =>
    state ++ [{ id := itemId, name := jsOrString itemName "", isCompleted := false }]
  | .rename itemId itemName =>
    state.map fun it =>
      if it.id = itemId then { it with name := jsOrString itemName it.name } else it

/-- Actions of the `optimisticSharedWith` reducer in `ShareListForm.tsx`. -/
inductive SharedAction where
  | add (user : SharedUser)
  | remove (user : SharedUser)

/-- The `optimisticSharedWith` reducer of `ShareListForm.tsx`: `add` is
deduplicated by email (`state.some(u => u.email === user.email)`),
`remove` filters by id. -/
def optimisticSharedWithReducer (state : List SharedUser) :
    SharedAction → List SharedUser
  | .add user =>
    if ∃ x ∈ state, x.email = user.email then state
    else state ++ [user]
  | .remove user =>
    state.filter fun x => x.id ≠ user.id

/-! ### Tentative-id generation

`handleCreateList` builds the id as a template string around
`crypto.randomUUID()`; the item form and the share form build it around
`Date.now()` (a millisecond clock). -/

/-- Tentative list id from `ListsContainer.tsx`:
the template string around `crypto.randomUUID()`. -/
def tempListIdOf (uuid : String) : String := "temp-" ++ uuid

/-- Tentative item id from `ShoppingList.tsx`:
the template string around `Date.now()` (milliseconds). -/
def tempItemIdOf (nowMs : Nat) : String := "temp-" ++ toString nowMs

/-- Tentative shared-user id from `ShareListForm.tsx`:
the template string around `Date.now()` (milliseconds). -/
def tempShareIdOf (nowMs : Nat) : String := "temp-" ++ toString nowMs

/-- The pending classification used by the rendering layer:
`id.startsWith("temp-")`, modelled on the character data. -/
def isPendingId (id : String) : Prop := "temp-".data <+: id.data

/-- One tentative-id generation event in a session: an item add or a
share invite observes the millisecond clock, a list creation draws a
UUID. -/
inductive GenEvent where
  | itemAdd (nowMs : Nat)
  | shareInvite (nowMs : Nat)
  | listCreate (uuid : String)
deriving DecidableEq, Repr

/-- The tentative id a generation event produces. -/
def genTempId : GenEvent → String
  | .itemAdd nowMs => tempItemIdOf nowMs
  | .shareInvite nowMs => tempShareIdOf nowMs
  | .listCreate uuid => tempListIdOf uuid

/-- All tentative ids produced across a session of generation events. -/
def sessionTempIds (events : List GenEvent) : List String :=
  events.map genTempId

/-- Modelled from the spec (the backing store's id generator is not part
of the sources): an authoritative id is assigned by the backing store and
never lies in the reserved tentative namespace, i.e. it does not carry
the `temp-` marker. -/
def isAuthoritativeId (id : String) : Prop := ¬ isPendingId id

/-! ### Mutation coordinators

Each handler is embedded as a pure function of the pre-state and the
already-resolved authoritative outcome.  The second component of the
result counts the user-visible failure notices (`toast.error` or
`alert`) the handler raises.  A rejected authoritative call is *not*
modelled here: no handler wraps its `await` in `try`/`catch`, so a
rejection aborts the continuation before any rollback code runs. -/

/-- Result of the `createList` server action as observed by
`handleCreateList`: a falsy result, `{success:false}`, `{success:true}`
without a `list` payload, or `{success:true, list}`. -/
inductive CreateListResult where
  | noResult
  | failed
  | okMissingList
  | ok (list : ShoppingListData)

/-- `handleCreateList` from `ListsContainer.tsx`: optimistic `add` of a
placeholder carrying the current user's identity, then `replace` on
success or `delete` plus one `toast.error` on failure. -/
def handleCreateList (allLists state : List ShoppingListData)
    (currentUserId : String) (currentUserName : Option String)
    (currentUserEmail : String) (uuid : String) (title : String)
    (result : CreateListResult) : List ShoppingListData × Nat :=
  let tempListId := tempListIdOf uuid
  let optimisticList : ShoppingListData :=
    { id := tempListId, title := title, ownerId := currentUserId,
      owner := { name := currentUserName, email := currentUserEmail },
      items := [], sharedWith := [] }
  let s1 := optimisticListsReducer allLists state (.add optimisticList)
  match result with
  | .noResult => (optimisticListsReducer allLists s1 (.delete tempListId), 1)
  | .failed => (optimisticListsReducer allLists s1 (.delete tempListId), 1)
  | .okMissingList => (optimisticListsReducer allLists s1 (.delete tempListId), 1)
  | .ok list => (optimisticListsReducer allLists s1 (.replace tempListId list), 0)

/-- `handleConfirmRename` from `ListsContainer.tsx`: no-op when the
trimmed title is empty or unchanged; otherwise optimistic `rename`, and
on `{success:false}` a compensating `rename` back to the captured list
plus one `toast.error`.  `result = none` models a falsy result, which the
`if (result && !result.success)` check treats like success. -/
def handleConfirmRename (allLists state : List ShoppingListData)
    (list : ShoppingListData) (editTitle : String)
    (result : Option Bool) : List ShoppingListData × Nat :=
  let trimmedTitle := jsTrim editTitle
  if trimmedTitle = "" ∨ trimmedTitle = list.title then (state, 0)
  else
    let s1 := optimisticListsReducer allLists state
      (.rename list.id { list with title := trimmedTitle })
    match result with
    | some false =>
      (optimisticListsReducer allLists s1 (.rename list.id list), 1)
    | _ => (s1, 0)

/-- `handleConfirmDelete` from `ListsContainer.tsx`: optimistic `delete`,
and on `{success:false}` a `restore` of the captured list plus one
`toast.error`. -/
def handleConfirmDelete (allLists state : List ShoppingListData)
    (list : ShoppingListData) (result : Option Bool) :
    List ShoppingListData × Nat :=
  let s1 := optimisticListsReducer allLists state (.delete list.id)
  match result with
  | some false =>
    (optimisticListsReducer allLists s1 (.restore list.id list), 1)
  | _ => (s1, 0)

/-- `handleConfirmLeave` from `ListsContainer.tsx`: same optimistic shape
as `handleConfirmDelete`, round-tripping through `leaveSharedList`. -/
def handleConfirmLeave (allLists state : List ShoppingListData)
    (list : ShoppingListData) (result : Option Bool) :
    List ShoppingListData × Nat :=
  let s1 := optimisticListsReducer allLists state (.delete list.id)
  match result with
  | some false =>
    (optimisticListsReducer allLists s1 (.restore list.id list), 1)
  | _ => (s1, 0)

/-- The add-item `onSubmit` handler of `ShoppingList.tsx`: guard on empty
trimmed name or an in-flight add, optimistic `add` under a fresh
`temp-` id, and on `{success:false}` a `delete` of the tentative item
plus one `alert`. -/
def handleAddItemSubmit (state : List Item) (newItemName : String)
    (isAddingItem : Bool) (nowMs : Nat) (result : Option Bool) :
    List Item × Nat :=
  let trimmedName := jsTrim newItemName
  if trimmedName = "" ∨ isAddingItem = true then (state, 0)
  else
    let tempId := tempItemIdOf nowMs
    let s1 := optimisticItemsReducer state (.add tempId (some trimmedName))
    match result with
    | some false => (optimisticItemsReducer s1 (.delete tempId), 1)
    | _ => (s1, 0)

/-- `handleConfirmDeleteItem` from `ShoppingList.tsx`: optimistic
`delete`, then `await deleteItem(formData)` whose result is discarded —
no rollback and no failure notice on any outcome. -/
def handleConfirmDeleteItem (state : List Item) (item : Item)
    (_result : Option Bool) : List Item × Nat :=
  (optimisticItemsReducer state (.delete item.id), 0)

/-- The toggle form action of `ShoppingList.tsx`: optimistic `toggle`,
then `await toggleItem(formData)` whose result is discarded — no
rollback and no failure notice on any outcome. -/
def handleToggleItemAction (state : List Item) (item : Item)
    (_result : Option Bool) : List Item × Nat :=
  (optimisticItemsReducer state (.toggle item.id), 0)

/-- `handleConfirmItemRename` from `ShoppingList.tsx`: no-op when the
trimmed name is empty or unchanged; otherwise optimistic `rename`, and on
`{success:false}` a compensating `rename` back to the captured name plus
one `alert`. -/
def handleConfirmItemRename (state : List Item) (item : Item)
    (editItemName : String) (result : Option Bool) : List Item × Nat :=
  let trimmedName := jsTrim editItemName
  if trimmedName = "" ∨ trimmedName = item.name then (state, 0)
  else
    let s1 := optimisticItemsReducer state (.rename item.id (some trimmedName))
    match result with
    | some false =>
      (optimisticItemsReducer s1 (.rename item.id (some item.name)), 1)
    | _ => (s1, 0)

/-- The invite `handleSubmit` of `ShareListForm.tsx`: guard on empty
trimmed email, optimistic `add` of a temp user, and on `{success:false}`
a `remove` of that temp user plus one `alert`. -/
def handleShareSubmit (state : List SharedUser) (rawEmail : String)
    (nowMs : Nat) (result : Option Bool) : List SharedUser × Nat :=
  let normalizedEmail := jsTrim rawEmail
  if normalizedEmail = "" then (state, 0)
  else
    let tempUser : SharedUser :=
      { id := tempShareIdOf nowMs, name := none, email := some normalizedEmail }
    let s1 := optimisticSharedWithReducer state (.add tempUser)
    match result with
    | some false => (optimisticSharedWithReducer s1 (.remove tempUser), 1)
    | _ => (s1, 0)

/-- `handleConfirmRemoveUser` from `ShareListForm.tsx`: optimistic
`remove`, and on `{success:false}` a compensating `add` of the captured
user plus one `alert`.  The `add` rollback appends at the tail, not at
the user's original position. -/
def handleConfirmRemoveUser (state : List SharedUser) (user : SharedUser)
    (result : Option Bool) : List SharedUser × Nat :=
  let s1 := optimisticSharedWithReducer state (.remove user)
  match result with
  | some false => (optimisticSharedWithReducer s1 (.add user), 1)
  | _ => (s1, 0)

/-! ### Authoritative `renameList` server action (`src/app/actions.ts`)

The database visible to `renameList` is the table of list rows; the Zod
schema (`renameListSchema`, whose module is not among the sources) is
abstracted as a boolean validation verdict — every path below returns
`success:false` for a non-owner regardless of that verdict. -/

/-- One `shoppingList` row as `renameList` sees it. -/
structure DbListRow where
  id : String
  ownerId : String
  title : String
deriving DecidableEq, Repr

/-- `renameList` from `src/app/actions.ts`: authentication check, schema
validation, then `updateMany` filtered by `id` *and* `ownerId`; a match
count of zero yields `{success:false}` (only the owner may rename). -/
def renameList (db : List DbListRow) (sessionUserId : Option String)
    (titleValid : Bool) (listId title : String) : List DbListRow × Bool :=
  match sessionUserId with
  | none => (db, false)
  | some uid =>
    if titleValid = false then (db, false)
    else
      let updatedCount :=
        (db.filter fun r => r.id = listId ∧ r.ownerId = uid).length
      if updatedCount = 0 then (db, false)
      else
        (db.map fun r =>
          if r.id = listId ∧ r.ownerId = uid then { r with title := title } else r,
         true)

/-! ### List helper lemmas -/

theorem map_eq_self_of {l : List α} {f : α → α} (h : ∀ x ∈ l, f x = x) :
    l.map f = l := by
  induction l with
  | nil => rfl
  | cons x xs ih =>
    simp only [List.map_cons]
    rw [h x (by simp), ih (fun y hy => h y (by simp [hy]))]

theorem filter_eq_self_of {l : List α} {p : α → Bool} (h : ∀ x ∈ l, p x = true) :
    l.filter p = l :=
  List.filter_eq_self.mpr h

theorem insertAt_append (a : α) (l1 l2 : List α) :
    insertAt l1.length a (l1 ++ l2) = l1 ++ a :: l2 := by
  induction l1 with
  | nil => cases l2 <;> rfl
  | cons x xs ih => simpa [insertAt] using ih

theorem insertAt_perm (n : Nat) (a : α) (l : List α) :
    List.Perm (insertAt n a l) (a :: l) := by
  induction l generalizing n with
  | nil => simp [insertAt]
  | cons x xs ih =>
    cases n with
    | zero => simp [insertAt]
    | succ m =>
      simp only [insertAt]
      exact ((ih m).cons x).trans (List.Perm.swap a x xs)

theorem jsFindIndex_append_cons (p : α → Prop) [DecidablePred p]
    (l1 l2 : List α) (a : α) (h1 : ∀ x ∈ l1, ¬ p x) (ha : p a) :
    jsFindIndex p (l1 ++ a :: l2) = some l1.length := by
  induction l1 with
  | nil => simp [jsFindIndex, ha]
  | cons x xs ih =>
    simp only [List.cons_append, jsFindIndex, List.append_eq]
    rw [if_neg (h1 x (by simp)), ih (fun y hy => h1 y (by simp [hy]))]
    rfl

theorem jsFindIndex_eq_none (p : α → Prop) [DecidablePred p]
    (l : List α) (h : ∀ x ∈ l, ¬ p x) : jsFindIndex p l = none := by
  induction l with
  | nil => rfl
  | cons x xs ih =>
    simp only [jsFindIndex]
    rw [if_neg (h x (by simp)), ih (fun y hy => h y (by simp [hy]))]
    rfl

theorem filter_append_middle (p : α → Bool) (l1 l2 : List α) (a : α)
    (h1 : ∀ x ∈ l1, p x = true) (h2 : ∀ x ∈ l2, p x = true)
    (ha : p a = false) :
    (l1 ++ a :: l2).filter p = l1 ++ l2 := by
  simp [List.filter_append, filter_eq_self_of h1, filter_eq_self_of h2,
    List.filter_cons, ha]

/-- Optimistic rename to `trimmed` followed by the compensating rename
back to the captured `list` restores the original state, provided the
captured title is the one the state holds for that id. -/
theorem lists_rename_roundtrip (allLists state : List ShoppingListData)
    (list : ShoppingListData) (trimmed : String)
    (hcap : ∀ x ∈ state, x.id = list.id → x.title = list.title) :
    optimisticListsReducer allLists
        (optimisticListsReducer allLists state
          (.rename list.id { list with title := trimmed }))
        (.rename list.id list)
      = state := by
  simp only [optimisticListsReducer, List.map_map]
  apply map_eq_self_of
  intro x hx
  have hcapx := hcap x hx
  obtain ⟨xid, xtitle, xo, xw, xi, xs⟩ := x
  by_cases h : xid = list.id
  · have ht : xtitle = list.title := hcapx h
    simp [Function.comp, h, ht]
  · simp [Function.comp, h]

/-- Optimistic item rename to `trimmed` followed by the compensating
rename back to the captured name restores the original state.  The
`itemName || item.name` fallback in the reducer makes this need both
names nonempty. -/
theorem items_rename_roundtrip (state : List Item) (item : Item)
    (trimmed : String) (htr : trimmed ≠ "") (hnm : item.name ≠ "")
    (hcap : ∀ x ∈ state, x.id = item.id → x.name = item.name) :
    optimisticItemsReducer
        (optimisticItemsReducer state (.rename item.id (some trimmed)))
        (.rename item.id (some item.name))
      = state := by
  simp only [optimisticItemsReducer, List.map_map]
  apply map_eq_self_of
  intro x hx
  have hcapx := hcap x hx
  obtain ⟨xid, xname, xdone⟩ := x
  by_cases h : xid = item.id
  · have hn : xname = item.name := hcapx h
    simp [Function.comp, h, jsOrString, htr, hnm, hn]
  · simp [Function.comp, h]

/-- Deleting entity `e` from a state equal to the snapshot and then
restoring it re-inserts it at its snapshot index, reproducing the
snapshot exactly (given that `e.id` occurs only at that index). -/
theorem delete_then_restore_snapshot (l1 l2 : List ShoppingListData)
    (e : ShoppingListData) (hfresh : ∀ x ∈ l1 ++ l2, x.id ≠ e.id) :
    optimisticListsReducer (l1 ++ e :: l2)
        (optimisticListsReducer (l1 ++ e :: l2) (l1 ++ e :: l2)
          (.delete e.id))
        (.restore e.id e)
      = l1 ++ e :: l2 := by
  have h1 : ∀ x ∈ l1, x.id ≠ e.id := fun x hx => hfresh x (by simp [hx])
  have h2 : ∀ x ∈ l2, x.id ≠ e.id := fun x hx => hfresh x (by simp [hx])
  have hdel : optimisticListsReducer (l1 ++ e :: l2) (l1 ++ e :: l2)
      (.delete e.id) = l1 ++ l2 := by
    simp only [optimisticListsReducer]
    exact filter_append_middle _ l1 l2 e
      (fun x hx => by simpa using h1 x hx)
      (fun x hx => by simpa using h2 x hx) (by simp)
  rw [hdel]
  simp only [optimisticListsReducer]
  rw [if_neg (by rintro ⟨x, hx, hxe⟩; exact hfresh x hx hxe)]
  rw [jsFindIndex_append_cons (fun x => x.id = e.id) l1 l2 e h1 rfl]
  exact insertAt_append e l1 l2

/-- Optimistic `add` of a fresh entity followed by `delete` of its id
restores the original lists state. -/
theorem lists_add_then_delete (allLists state : List ShoppingListData)
    (l : ShoppingListData) (hl : ∀ x ∈ state, x.id ≠ l.id) :
    optimisticListsReducer allLists
        (optimisticListsReducer allLists state (.add l)) (.delete l.id)
      = state := by
  have hadd : optimisticListsReducer allLists state (.add l) = l :: state := by
    simp only [optimisticListsReducer]
    rw [if_neg]
    rintro ⟨x, hx, hxe⟩
    exact hl x hx hxe
  rw [hadd]
  simp only [optimisticListsReducer, List.filter_cons]
  rw [if_neg (by simp)]
  exact filter_eq_self_of fun x hx => by simpa using hl x hx

/-- Optimistic item `add` under a fresh id followed by `delete` of that
id restores the original items state. -/
theorem items_add_then_delete (state : List Item) (itemId : String)
    (nameOpt : Option String) (hfresh : ∀ x ∈ state, x.id ≠ itemId) :
    optimisticItemsReducer
        (optimisticItemsReducer state (.add itemId nameOpt)) (.delete itemId)
      = state := by
  have h1 : state.filter (fun x => x.id ≠ itemId) = state :=
    filter_eq_self_of fun x hx => by simpa using hfresh x hx
  simp [optimisticItemsReducer, List.filter_append, List.filter_cons, h1]
  exact hfresh

/-- Optimistic shared-user `add` (possibly a deduplicated no-op)
followed by `remove` of the same user restores the original state, as
long as the user's id is fresh. -/
theorem shared_add_then_remove (state : List SharedUser) (u : SharedUser)
    (hfresh : ∀ x ∈ state, x.id ≠ u.id) :
    optimisticSharedWithReducer
        (optimisticSharedWithReducer state (.add u)) (.remove u)
      = state := by
  have h1 : state.filter (fun x => x.id ≠ u.id) = state :=
    filter_eq_self_of fun x hx => by simpa using hfresh x hx
  by_cases hmail : ∃ x ∈ state, x.email = u.email
  · simp only [optimisticSharedWithReducer]
    rw [if_pos hmail]
    exact h1
  · simp only [optimisticSharedWithReducer]
    rw [if_neg hmail, List.filter_append, h1]
    simp [List.filter_cons]

theorem map_congr_mem {l : List α} {f g : α → β}
    (h : ∀ x ∈ l, f x = g x) : l.map f = l.map g := by
  induction l with
  | nil => rfl
  | cons x xs ih =>
    simp only [List.map_cons]
    rw [h x (by simp), ih (fun y hy => h y (by simp [hy]))]

theorem nodup_map_filter {l : List α} {f : α → β} {p : α → Bool}
    (h : (l.map f).Nodup) : ((l.filter p).map f).Nodup :=
  h.sublist ((l.filter_sublist).map f)

theorem nodup_append_singleton {l : List β} {b : β}
    (h : l.Nodup) (hb : b ∉ l) : (l ++ [b]).Nodup :=
  ((List.perm_append_singleton b l).nodup_iff).mpr (List.nodup_cons.mpr ⟨hb, h⟩)

/-- `.map` over an id-preserving per-element transform leaves the id
projection unchanged. -/
theorem map_ids_of_id_preserved {l : List α} {f : α → α} {g : α → β}
    (hf : ∀ x ∈ l, g (f x) = g x) : (l.map f).map g = l.map g := by
  rw [List.map_map]
  exact map_congr_mem fun x hx => hf x hx

/-- `replace tempId l` keeps ids pairwise distinct provided the
replacement's id does not collide with a *different* entity's id. -/
theorem nodup_replace_ids (state : List ShoppingListData) (tempId : String)
    (l : ShoppingListData)
    (hn : (state.map ShoppingListData.id).Nodup)
    (hno : ∀ x ∈ state, x.id ≠ tempId → x.id ≠ l.id) :
    ((state.map fun x => if x.id = tempId then l else x).map
        ShoppingListData.id).Nodup := by
  induction state with
  | nil => simp
  | cons x xs ih =>
    simp only [List.map_cons, List.nodup_cons] at hn
    obtain ⟨hxnot, hxs⟩ := hn
    have ihx := ih hxs (fun y hy hyt => hno y (by simp [hy]) hyt)
    by_cases hx : x.id = tempId
    · have hys : ∀ y ∈ xs, y.id ≠ tempId := by
        intro y hy hyt
        exact hxnot (List.mem_map.mpr ⟨y, hy, by rw [hyt, hx]⟩)
      have hmapeq : xs.map (fun y => if y.id = tempId then l else y) = xs :=
        map_eq_self_of fun y hy => if_neg (hys y hy)
      simp only [List.map_cons, if_pos hx, hmapeq, List.nodup_cons]
      refine ⟨?_, hxs⟩
      intro hmem
      rcases List.mem_map.mp hmem with ⟨y, hy, hye⟩
      exact hno y (by simp [hy]) (hys y hy) hye
    · simp only [List.map_cons, if_neg hx, List.nodup_cons]
      refine ⟨?_, ihx⟩
      intro hmem
      rcases List.mem_map.mp hmem with ⟨z, hz, hze⟩
      rcases List.mem_map.mp hz with ⟨y, hy, hyf⟩
      by_cases hyt : y.id = tempId
      · rw [← hyf, if_pos hyt] at hze
        exact hno x (by simp) hx hze.symm
      · rw [← hyf, if_neg hyt] at hze
        exact hxnot (List.mem_map.mpr ⟨y, hy, hze⟩)

/-! ### Decimal rendering

The standard library's `Nat.repr` (behind the `Date.now()` template
string) is a fuel-based digit printer; `repChars` is its fuel-free
normal form, used to prove the printer injective. -/

/-- Decimal digits of `n`, most significant first. -/
def repChars (n : Nat) : List Char :=
  if _h : n < 10 then [Nat.digitChar n]
  else repChars (n / 10) ++ [Nat.digitChar (n % 10)]
decreasing_by exact Nat.div_lt_self (by omega) (by omega)

theorem repChars_ne_nil (n : Nat) : repChars n ≠ [] := by
  rw [repChars]
  split <;> simp

theorem repChars_eq (n : Nat) :
    repChars n
      = (if n < 10 then [] else repChars (n / 10))
        ++ [Nat.digitChar (n % 10)] := by
  rw [repChars]
  by_cases h : n < 10
  · rw [dif_pos h, if_pos h, Nat.mod_eq_of_lt h]
    rfl
  · rw [dif_neg h, if_neg h]

theorem toDigitsCore_eq_repChars (f : Nat) :
    ∀ (n : Nat) (acc : List Char), n < f →
    Nat.toDigitsCore 10 f n acc = repChars n ++ acc := by
  induction f with
  | zero => intro n acc h; omega
  | succ f ih =>
    intro n acc h
    simp only [Nat.toDigitsCore]
    by_cases h10 : n / 10 = 0
    · rw [if_pos h10]
      have hlt : n < 10 := by
        by_contra hge
        have h10le : 10 ≤ n := by omega
        have := Nat.div_le_div_right (c := 10) h10le
        simp at this
        omega
      rw [repChars, dif_pos hlt, Nat.mod_eq_of_lt hlt]
      rfl
    · rw [if_neg h10]
      have hpos : 0 < n := by
        by_contra h0
        have hz : n = 0 := by omega
        subst hz
        simp at h10
      have hdivlt : n / 10 < f := by
        have hlt : n / 10 < n := Nat.div_lt_self hpos (by omega)
        omega
      rw [ih (n / 10) _ hdivlt, repChars_eq n]
      have hnot : ¬ n < 10 := fun hlt => h10 (Nat.div_eq_of_lt hlt)
      rw [if_neg hnot]
      simp

theorem digitChar_inj_fin :
    ∀ (a b : Fin 10), Nat.digitChar a.val = Nat.digitChar b.val → a = b := by
  decide

theorem repChars_injective :
    ∀ (m n : Nat), repChars m = repChars n → m = n := by
  intro m
  induction m using Nat.strong_induction_on with
  | _ m ih =>
    intro n heq
    rw [repChars_eq m, repChars_eq n] at heq
    obtain ⟨hpre, hsuf⟩ := List.append_inj' heq rfl
    have hd : Nat.digitChar (m % 10) = Nat.digitChar (n % 10) := by
      simpa using hsuf
    have hfin := digitChar_inj_fin ⟨m % 10, by omega⟩ ⟨n % 10, by omega⟩ hd
    have hmod : m % 10 = n % 10 := by
      simpa using congrArg Fin.val hfin
    by_cases hm : m < 10 <;> by_cases hn2 : n < 10
    · omega
    · rw [if_pos hm, if_neg hn2] at hpre
      exact absurd hpre.symm (repChars_ne_nil _)
    · rw [if_neg hm, if_pos hn2] at hpre
      exact absurd hpre (repChars_ne_nil _)
    · rw [if_neg hm, if_neg hn2] at hpre
      have hdiv := ih (m / 10) (Nat.div_lt_self (by omega) (by omega))
        (n / 10) hpre
      omega

theorem repr_eq_repChars (n : Nat) : Nat.repr n = ⟨repChars n⟩ := by
  show (Nat.toDigits 10 n).asString = _
  unfold Nat.toDigits
  rw [toDigitsCore_eq_repChars (n + 1) n [] (Nat.lt_succ_self n)]
  simp [List.asString]

theorem natRepr_injective {m n : Nat} (h : Nat.repr m = Nat.repr n) :
    m = n := by
  rw [repr_eq_repChars, repr_eq_repChars] at h
  exact repChars_injective m n (congrArg String.data h)

theorem string_append_left_cancel {p a b : String} (h : p ++ a = p ++ b) :
    a = b := by
  have hd := congrArg String.data h
  simp only [String.data_append] at hd
  exact String.ext (List.append_cancel_left hd)

/-! ### Demo fixtures used by witnesses -/

def demoOwner : ListOwner := { name := some "Ann", email := "ann@example.com" }

def demoItemA : Item := { id := "a", name := "Milk", isCompleted := false }

def demoItemB : Item := { id := "b", name := "Eggs", isCompleted := true }

def demoList1 : ShoppingListData :=
  { id := "L1", title := "Groceries", ownerId := "u1", owner := demoOwner,
    items := [demoItemA], sharedWith := [] }

def demoList2 : ShoppingListData :=
  { id := "L2", title := "Hardware", ownerId := "u1", owner := demoOwner,
    items := [], sharedWith := [] }

def demoTempList : ShoppingListData :=
  { id := "temp-42", title := "Trip", ownerId := "u1", owner := demoOwner,
    items := [], sharedWith := [] }

def demoShared : SharedUser :=
  { id := "s1", name := some "Bob", email := some "bob@example.com" }

def demoShared2 : SharedUser :=
  { id := "s2", name := none, email := some "carol@example.com" }

/-! ### Claims -/

/-- C10.  Applying the items `toggle` action twice with the same item id
yields a collection equal to the original: `isCompleted` is restored by
double negation and every other field and item is unchanged. -/
theorem claim_C10_toggle_involution (state : List Item) (itemId : String) :
    optimisticItemsReducer (optimisticItemsReducer state (.toggle itemId))
      (.toggle itemId) = state := by
  simp only [optimisticItemsReducer, List.map_map]
  apply map_eq_self_of
  intro x _hx
  obtain ⟨xid, xname, xdone⟩ := x
  by_cases h : xid = itemId
  · simp [Function.comp, h, Bool.not_not]
  · simp [Function.comp, h]

/-- C8.  `delete` is idempotent on both the lists store and the items
store, and `restore` of an entity whose id is already present is a
no-op, so repeated deletes and repeated restores do not corrupt state. -/
theorem claim_C8_idempotent_delete_restore :
    (∀ (allLists state : List ShoppingListData) (listId : String),
      optimisticListsReducer allLists
          (optimisticListsReducer allLists state (.delete listId))
          (.delete listId)
        = optimisticListsReducer allLists state (.delete listId))
    ∧ (∀ (state : List Item) (itemId : String),
      optimisticItemsReducer
          (optimisticItemsReducer state (.delete itemId)) (.delete itemId)
        = optimisticItemsReducer state (.delete itemId))
    ∧ (∀ (allLists state : List ShoppingListData) (e : ShoppingListData),
      (∃ x ∈ state, x.id = e.id) →
      optimisticListsReducer allLists state (.restore e.id e) = state) := by
  refine ⟨?_, ?_, ?_⟩
  · intro allLists state listId
    simp only [optimisticListsReducer]
    apply filter_eq_self_of
    intro x hx
    exact (List.mem_filter.mp hx).2
  · intro state itemId
    simp only [optimisticItemsReducer]
    apply filter_eq_self_of
    intro x hx
    exact (List.mem_filter.mp hx).2
  · intro allLists state e h
    simp only [optimisticListsReducer]
    rw [if_pos h]

/-- C8 witness: concrete instances of the idempotence statements,
including a restore applied to a state already holding the entity. -/
theorem claim_C8_witness :
    optimisticListsReducer [] [demoList1] (.restore demoList1.id demoList1)
      = [demoList1] :=
  claim_C8_idempotent_delete_restore.2.2 [] [demoList1] demoList1
    ⟨demoList1, by simp, rfl⟩

/-- C1 counterexample: the items store's `add` has no duplicate-id
guard — adding an item whose id is already present does *not* leave the
collection unchanged, contradicting the claim as stated. -/
theorem claim_C1_counterexample :
    optimisticItemsReducer [demoItemA] (.add demoItemA.id (some "Eggs"))
      ≠ [demoItemA] := by
  decide

/-- C1 amended.  The lists store's `add` is a no-op when an entity with
the same id is already present and otherwise inserts at the head; the
items store's `add` always appends at the tail, with no duplicate-id
guard. -/
theorem claim_C1_add_behavior :
    (∀ (allLists state : List ShoppingListData) (l : ShoppingListData),
      (∃ x ∈ state, x.id = l.id) →
      optimisticListsReducer allLists state (.add l) = state)
    ∧ (∀ (allLists state : List ShoppingListData) (l : ShoppingListData),
      ¬ (∃ x ∈ state, x.id = l.id) →
      optimisticListsReducer allLists state (.add l) = l :: state)
    ∧ (∀ (state : List Item) (itemId : String) (itemName : Option String),
      optimisticItemsReducer state (.add itemId itemName)
        = state ++
          [{ id := itemId, name := jsOrString itemName "", isCompleted := false }]) := by
  refine ⟨?_, ?_, ?_⟩
  · intro allLists state l h
    simp only [optimisticListsReducer]
    rw [if_pos h]
  · intro allLists state l h
    simp only [optimisticListsReducer]
    rw [if_neg h]
  · intro state itemId itemName
    rfl

/-- C1 witness: a duplicate add of a list is a no-op, a fresh add of a
list prepends. -/
theorem claim_C1_witness :
    optimisticListsReducer [] [demoList1] (.add demoList1) = [demoList1]
      ∧ optimisticListsReducer [] [demoList1] (.add demoList2)
        = [demoList2, demoList1] :=
  ⟨claim_C1_add_behavior.1 [] [demoList1] demoList1 ⟨demoList1, by simp, rfl⟩,
   claim_C1_add_behavior.2.1 [] [demoList1] demoList2 (by decide)⟩

/-- C3.  On a state equal to the authoritative snapshot in which entity
`e` sits at index `|l1|` (and, per the id-uniqueness invariant, nowhere
else), `delete e.id` followed by `restore e.id e` reproduces the
snapshot positionally and content-exactly; and when `e` is absent from
the snapshot, `restore` appends `e` at the tail. -/
theorem claim_C3_restore_inverse_of_delete :
    (∀ (l1 l2 : List ShoppingListData) (e : ShoppingListData),
      (∀ x ∈ l1 ++ l2, x.id ≠ e.id) →
      optimisticListsReducer (l1 ++ e :: l2)
          (optimisticListsReducer (l1 ++ e :: l2) (l1 ++ e :: l2)
            (.delete e.id))
          (.restore e.id e)
        = l1 ++ e :: l2)
    ∧ (∀ (allLists state : List ShoppingListData) (e : ShoppingListData),
      (∀ x ∈ allLists, x.id ≠ e.id) →
      (∀ x ∈ state, x.id ≠ e.id) →
      optimisticListsReducer allLists state (.restore e.id e)
        = state ++ [e]) := by
  constructor
  · exact delete_then_restore_snapshot
  · intro allLists state e hsnap hstate
    simp only [optimisticListsReducer]
    rw [if_neg (by rintro ⟨x, hx, hxe⟩; exact hstate x hx hxe)]
    rw [jsFindIndex_eq_none (fun x => x.id = e.id) allLists hsnap]

/-- C3 witness: deleting the first of two lists and restoring it puts it
back at index 0; restoring an entity unknown to the snapshot appends. -/
theorem claim_C3_witness :
    optimisticListsReducer [demoList1, demoList2]
        (optimisticListsReducer [demoList1, demoList2]
          [demoList1, demoList2] (.delete demoList1.id))
        (.restore demoList1.id demoList1)
      = [demoList1, demoList2]
      ∧ optimisticListsReducer [demoList1] [demoList1]
          (.restore demoList2.id demoList2) = [demoList1, demoList2] :=
  ⟨claim_C3_restore_inverse_of_delete.1 [] [demoList2] demoList1 (by decide),
   claim_C3_restore_inverse_of_delete.2 [demoList1] [demoList1] demoList2
     (by decide) (by decide)⟩

/-- C5.  `replace tempId real` substitutes `real` at the index that held
the entity with id `tempId` (unique by the id invariant) and leaves
every other entity unchanged; when no entity has id `tempId` the state
is unchanged. -/
theorem claim_C5_replace_preserves_position :
    (∀ (allLists l1 l2 : List ShoppingListData) (t real : ShoppingListData)
        (tempId : String),
      t.id = tempId →
      (∀ x ∈ l1 ++ l2, x.id ≠ tempId) →
      optimisticListsReducer allLists (l1 ++ t :: l2) (.replace tempId real)
        = l1 ++ real :: l2)
    ∧ (∀ (allLists state : List ShoppingListData) (real : ShoppingListData)
        (tempId : String),
      (∀ x ∈ state, x.id ≠ tempId) →
      optimisticListsReducer allLists state (.replace tempId real) = state) := by
  constructor
  · intro allLists l1 l2 t real tempId ht hfresh
    simp only [optimisticListsReducer, List.map_append, List.map_cons]
    rw [if_pos ht]
    rw [map_eq_self_of (fun x hx => if_neg (hfresh x (by simp [hx])))]
    rw [map_eq_self_of (fun x hx => if_neg (hfresh x (by simp [hx])))]
  · intro allLists state real tempId hfresh
    simp only [optimisticListsReducer]
    exact map_eq_self_of (fun x hx => if_neg (hfresh x hx))

/-- C5 witness: replacing the tentative list sitting at index 1 puts the
authoritative list at index 1 and leaves index 0 untouched; a replace
with an unknown id is a no-op. -/
theorem claim_C5_witness :
    optimisticListsReducer [] [demoList1, demoTempList]
        (.replace "temp-42" demoList2) = [demoList1, demoList2]
      ∧ optimisticListsReducer [] [demoList1]
          (.replace "temp-42" demoList2) = [demoList1] :=
  ⟨claim_C5_replace_preserves_position.1 [] [demoList1] [] demoTempList
     demoList2 "temp-42" rfl (by decide),
   claim_C5_replace_preserves_position.2 [] [demoList1] demoList2 "temp-42"
     (by decide)⟩

/-- C9.  An optimistic invite whose email is already present in the
shared-user view adds no second entry, and the whole invite round trip
(optimistic add, then rollback `remove` on failure or nothing on
success) leaves the collection unchanged regardless of the server
outcome. -/
theorem claim_C9_duplicate_invite_guard :
    (∀ (state : List SharedUser) (u : SharedUser),
      (∃ x ∈ state, x.email = u.email) →
      optimisticSharedWithReducer state (.add u) = state)
    ∧ (∀ (state : List SharedUser) (rawEmail : String) (nowMs : Nat)
        (r : Option Bool),
      (∃ x ∈ state, x.email = some (jsTrim rawEmail)) →
      (∀ x ∈ state, x.id ≠ tempShareIdOf nowMs) →
      (handleShareSubmit state rawEmail nowMs r).1 = state) := by
  constructor
  · intro state u h
    simp only [optimisticSharedWithReducer]
    rw [if_pos h]
  · intro state rawEmail nowMs r hemail hfresh
    simp only [handleShareSubmit]
    by_cases he : jsTrim rawEmail = ""
    · rw [if_pos he]
    · rw [if_neg he]
      have hadd : optimisticSharedWithReducer state
          (.add { id := tempShareIdOf nowMs, name := none,
                  email := some (jsTrim rawEmail) }) = state := by
        simp only [optimisticSharedWithReducer]
        exact if_pos hemail
      rcases r with _ | b
      · simp only [hadd]
      · cases b
        · rw [hadd]
          simp only [optimisticSharedWithReducer]
          exact filter_eq_self_of fun x hx => by
            simpa using hfresh x hx
        · simp only [hadd]

/-- C9 witness: inviting an email already present in the shared set
leaves the optimistic view unchanged both on server failure and on
server success. -/
theorem claim_C9_witness :
    (handleShareSubmit [demoShared] "bob@example.com" 7 (some false)).1
        = [demoShared]
      ∧ (handleShareSubmit [demoShared] "bob@example.com" 7 (some true)).1
        = [demoShared] :=
  ⟨claim_C9_duplicate_invite_guard.2 [demoShared] "bob@example.com" 7
     (some false) ⟨demoShared, by simp, by decide⟩ (by decide),
   claim_C9_duplicate_invite_guard.2 [demoShared] "bob@example.com" 7
     (some true) ⟨demoShared, by simp, by decide⟩ (by decide)⟩

/-- C7.  A non-owner's rename: the authoritative `renameList` reports
failure on every path (its `updateMany` is filtered by `ownerId`), and on
a `{success:false}` outcome the coordinator reverts the optimistic title
change, so the list again shows its original title; it raises a single
notice exactly when an authoritative call was made at all. -/
theorem claim_C7_unauthorized_rename_reverted :
    ∀ (db : List DbListRow) (uid : String) (titleValid : Bool)
      (allLists state : List ShoppingListData) (list : ShoppingListData)
      (editTitle : String),
      (∀ r ∈ db, r.id = list.id → r.ownerId ≠ uid) →
      (∀ x ∈ state, x.id = list.id → x.title = list.title) →
      (renameList db (some uid) titleValid list.id (jsTrim editTitle)).2 = false
      ∧ handleConfirmRename allLists state list editTitle (some false)
          = (state,
             if jsTrim editTitle = "" ∨ jsTrim editTitle = list.title
             then 0 else 1) := by
  intro db uid titleValid allLists state list editTitle howner hcap
  constructor
  · simp only [renameList]
    by_cases hv : titleValid = false
    · rw [if_pos hv]
    · rw [if_neg hv]
      have hnil : db.filter
          (fun r => r.id = list.id ∧ r.ownerId = uid) = [] := by
        rw [List.filter_eq_nil_iff]
        intro r hr
        simp only [decide_eq_true_eq, not_and]
        intro hid
        exact howner r hr hid
      rw [hnil]
      simp
  · simp only [handleConfirmRename]
    by_cases hguard : jsTrim editTitle = "" ∨ jsTrim editTitle = list.title
    · rw [if_pos hguard, if_pos hguard]
    · rw [if_neg hguard, if_neg hguard]
      rw [lists_rename_roundtrip allLists state list (jsTrim editTitle) hcap]

/-- C7 witness: user `u2` renames the list owned by `u1`; the server
reports failure and the coordinator restores the original title. -/
theorem claim_C7_witness :
    (renameList [{ id := "L1", ownerId := "u1", title := "Groceries" }]
        (some "u2") true demoList1.id (jsTrim "NewName")).2 = false
      ∧ handleConfirmRename [] [demoList1] demoList1 "NewName" (some false)
        = ([demoList1],
           if jsTrim "NewName" = "" ∨ jsTrim "NewName" = demoList1.title
           then 0 else 1) :=
  claim_C7_unauthorized_rename_reverted
    [{ id := "L1", ownerId := "u1", title := "Groceries" }] "u2" true
    [] [demoList1] demoList1 "NewName" (by decide) (by decide)

/-- C2 counterexample: `handleConfirmDeleteItem` discards the
authoritative result — on a `{success:false}` outcome the deleted item is
*not* restored and no failure notice is raised; and the revoke rollback
re-appends the removed user at the tail, not at the pre-edit position. -/
theorem claim_C2_counterexample :
    handleConfirmDeleteItem [demoItemA] demoItemA (some false)
        ≠ ([demoItemA], 1)
      ∧ handleConfirmRemoveUser [demoShared, demoShared2] demoShared
          (some false)
        ≠ ([demoShared, demoShared2], 1) := by
  exact ⟨by decide, by decide⟩

/-- C2 amended.  On a `{success:false}` authoritative outcome the
coordinators for list create, list rename, list delete, leave, item add,
item rename, invite and revoke roll back their optimistic edit and raise
exactly one failure notice; create/rename/delete/leave/add/rename/invite
restore the pre-edit view exactly, while revoke re-inserts the removed
user at the tail rather than the original index.  Item delete and item
toggle discard the authoritative result altogether: no rollback and no
notice on any outcome.  (Rejections are not caught by any handler, so no
rollback code runs for them; they are outside this pure model.) -/
theorem claim_C2_rollback_on_failure :
    (∀ (allLists state : List ShoppingListData) (uid : String)
        (uname : Option String) (uemail uuid title : String),
      (∀ x ∈ state, x.id ≠ tempListIdOf uuid) →
      handleCreateList allLists state uid uname uemail uuid title .failed
          = (state, 1)
        ∧ handleCreateList allLists state uid uname uemail uuid title .noResult
          = (state, 1)
        ∧ handleCreateList allLists state uid uname uemail uuid title
            .okMissingList = (state, 1))
    ∧ (∀ (allLists state : List ShoppingListData) (list : ShoppingListData)
        (editTitle : String),
      ¬ (jsTrim editTitle = "" ∨ jsTrim editTitle = list.title) →
      (∀ x ∈ state, x.id = list.id → x.title = list.title) →
      handleConfirmRename allLists state list editTitle (some false)
        = (state, 1))
    ∧ (∀ (l1 l2 : List ShoppingListData) (e : ShoppingListData),
      (∀ x ∈ l1 ++ l2, x.id ≠ e.id) →
      handleConfirmDelete (l1 ++ e :: l2) (l1 ++ e :: l2) e (some false)
        = (l1 ++ e :: l2, 1))
    ∧ (∀ (l1 l2 : List ShoppingListData) (e : ShoppingListData),
      (∀ x ∈ l1 ++ l2, x.id ≠ e.id) →
      handleConfirmLeave (l1 ++ e :: l2) (l1 ++ e :: l2) e (some false)
        = (l1 ++ e :: l2, 1))
    ∧ (∀ (state : List Item) (newItemName : String) (nowMs : Nat),
      jsTrim newItemName ≠ "" →
      (∀ x ∈ state, x.id ≠ tempItemIdOf nowMs) →
      handleAddItemSubmit state newItemName false nowMs (some false)
        = (state, 1))
    ∧ (∀ (state : List Item) (item : Item) (editItemName : String),
      ¬ (jsTrim editItemName = "" ∨ jsTrim editItemName = item.name) →
      item.name ≠ "" →
      (∀ x ∈ state, x.id = item.id → x.name = item.name) →
      handleConfirmItemRename state item editItemName (some false)
        = (state, 1))
    ∧ (∀ (state : List SharedUser) (rawEmail : String) (nowMs : Nat),
      jsTrim rawEmail ≠ "" →
      (∀ x ∈ state, x.id ≠ tempShareIdOf nowMs) →
      handleShareSubmit state rawEmail nowMs (some false) = (state, 1))
    ∧ (∀ (state : List SharedUser) (user : SharedUser),
      (∀ x ∈ state, x.id ≠ user.id → x.email ≠ user.email) →
      handleConfirmRemoveUser state user (some false)
        = ((state.filter fun x => x.id ≠ user.id) ++ [user], 1))
    ∧ (∀ (state : List Item) (item : Item) (r : Option Bool),
      handleConfirmDeleteItem state item r
        = (optimisticItemsReducer state (.delete item.id), 0))
    ∧ (∀ (state : List Item) (item : Item) (r : Option Bool),
      handleToggleItemAction state item r
        = (optimisticItemsReducer state (.toggle item.id), 0)) := by
  refine ⟨?_, ?_, ?_, ?_, ?_, ?_, ?_, ?_, ?_, ?_⟩
  · intro allLists state uid uname uemail uuid title hfresh
    refine ⟨?_, ?_, ?_⟩ <;>
    · simp only [handleCreateList]
      exact Prod.ext
        (lists_add_then_delete allLists state
          { id := tempListIdOf uuid, title := title, ownerId := uid,
            owner := { name := uname, email := uemail },
            items := [], sharedWith := [] } hfresh) rfl
  · intro allLists state list editTitle hguard hcap
    simp only [handleConfirmRename]
    rw [if_neg hguard]
    exact Prod.ext
      (lists_rename_roundtrip allLists state list (jsTrim editTitle) hcap) rfl
  · intro l1 l2 e hfresh
    simp only [handleConfirmDelete]
    exact Prod.ext (delete_then_restore_snapshot l1 l2 e hfresh) rfl
  · intro l1 l2 e hfresh
    simp only [handleConfirmLeave]
    exact Prod.ext (delete_then_restore_snapshot l1 l2 e hfresh) rfl
  · intro state newItemName nowMs htrim hfresh
    simp only [handleAddItemSubmit]
    rw [if_neg (by simp [htrim])]
    exact Prod.ext
      (items_add_then_delete state (tempItemIdOf nowMs) _ hfresh) rfl
  · intro state item editItemName hguard hnm hcap
    simp only [handleConfirmItemRename]
    rw [if_neg hguard]
    exact Prod.ext
      (items_rename_roundtrip state item (jsTrim editItemName)
        (fun h => hguard (Or.inl h)) hnm hcap) rfl
  · intro state rawEmail nowMs htrim hfresh
    simp only [handleShareSubmit]
    rw [if_neg htrim]
    exact Prod.ext (shared_add_then_remove state _ hfresh) rfl
  · intro state user hdistinct
    simp only [handleConfirmRemoveUser, optimisticSharedWithReducer]
    rw [if_neg]
    rintro ⟨x, hx, he⟩
    have hx1 := List.mem_filter.mp hx
    exact hdistinct x hx1.1 (by simpa using hx1.2) he
  · intro state item r
    rfl
  · intro state item r
    rfl

/-- C2 witness: a failed item add rolls back to the original items and
raises one alert; a failed list delete restores the list at its original
index and raises one toast. -/
theorem claim_C2_witness :
    handleAddItemSubmit [demoItemA] " Bread " false 99 (some false)
        = ([demoItemA], 1)
      ∧ handleConfirmDelete [demoList1, demoList2] [demoList1, demoList2]
          demoList1 (some false)
        = ([demoList1, demoList2], 1) :=
  ⟨(claim_C2_rollback_on_failure.2.2.2.2.1) [demoItemA] " Bread " 99
     (by decide) (by decide),
   (claim_C2_rollback_on_failure.2.2.1) [] [demoList2] demoList1 (by decide)⟩

/-- C6 counterexample: the items store's unguarded `add` breaks id
uniqueness — a state with distinct ids maps to one with a duplicated id,
so the invariant is *not* preserved by every store operation as
stated. -/
theorem claim_C6_counterexample :
    (([demoItemA] : List Item).map Item.id).Nodup
      ∧ ¬ ((optimisticItemsReducer [demoItemA]
            (.add demoItemA.id (some "Eggs"))).map Item.id).Nodup :=
  ⟨by decide, by decide⟩

/-- C6 amended.  Pairwise-distinct ids are preserved unconditionally by
the lists store's `add`, `delete`, `restore` and `rename`, by the items
store's `toggle`, `rename` and `delete`, and by the shared store's
`remove`; the items store's `add` and the shared store's `add` preserve
them only when the added entity's id is absent, and `replace` preserves
them only when the replacement's id does not collide with a different
entity's id.  After `replace tempId real` with `real.id ≠ tempId`, no
entity carries `tempId`: a tentative id and its authoritative successor
never coexist. -/
theorem claim_C6_unique_ids_invariant :
    (∀ (allLists state : List ShoppingListData) (l : ShoppingListData),
      (state.map ShoppingListData.id).Nodup →
      ((optimisticListsReducer allLists state (.add l)).map
          ShoppingListData.id).Nodup)
    ∧ (∀ (allLists state : List ShoppingListData) (listId : String),
      (state.map ShoppingListData.id).Nodup →
      ((optimisticListsReducer allLists state (.delete listId)).map
          ShoppingListData.id).Nodup)
    ∧ (∀ (allLists state : List ShoppingListData) (listId : String)
        (l : ShoppingListData),
      (state.map ShoppingListData.id).Nodup →
      ((optimisticListsReducer allLists state (.restore listId l)).map
          ShoppingListData.id).Nodup)
    ∧ (∀ (allLists state : List ShoppingListData) (listId : String)
        (l : ShoppingListData),
      (state.map ShoppingListData.id).Nodup →
      ((optimisticListsReducer allLists state (.rename listId l)).map
          ShoppingListData.id).Nodup)
    ∧ (∀ (allLists state : List ShoppingListData) (listId : String)
        (l : ShoppingListData),
      (state.map ShoppingListData.id).Nodup →
      (∀ x ∈ state, x.id ≠ listId → x.id ≠ l.id) →
      ((optimisticListsReducer allLists state (.replace listId l)).map
          ShoppingListData.id).Nodup)
    ∧ (∀ (state : List Item) (itemId : String),
      (state.map Item.id).Nodup →
      ((optimisticItemsReducer state (.toggle itemId)).map Item.id).Nodup)
    ∧ (∀ (state : List Item) (itemId : String) (nameOpt : Option String),
      (state.map Item.id).Nodup →
      ((optimisticItemsReducer state (.rename itemId nameOpt)).map
          Item.id).Nodup)
    ∧ (∀ (state : List Item) (itemId : String),
      (state.map Item.id).Nodup →
      ((optimisticItemsReducer state (.delete itemId)).map Item.id).Nodup)
    ∧ (∀ (state : List Item) (itemId : String) (nameOpt : Option String),
      (state.map Item.id).Nodup →
      (∀ x ∈ state, x.id ≠ itemId) →
      ((optimisticItemsReducer state (.add itemId nameOpt)).map
          Item.id).Nodup)
    ∧ (∀ (state : List SharedUser) (u : SharedUser),
      (state.map SharedUser.id).Nodup →
      (∀ x ∈ state, x.id ≠ u.id) →
      ((optimisticSharedWithReducer state (.add u)).map SharedUser.id).Nodup)
    ∧ (∀ (state : List SharedUser) (u : SharedUser),
      (state.map SharedUser.id).Nodup →
      ((optimisticSharedWithReducer state (.remove u)).map
          SharedUser.id).Nodup)
    ∧ (∀ (allLists state : List ShoppingListData) (tempId : String)
        (l : ShoppingListData),
      l.id ≠ tempId →
      ∀ x ∈ optimisticListsReducer allLists state (.replace tempId l),
        x.id ≠ tempId) := by
  refine ⟨?_, ?_, ?_, ?_, ?_, ?_, ?_, ?_, ?_, ?_, ?_, ?_⟩
  · intro allLists state l hn
    simp only [optimisticListsReducer]
    by_cases hg : ∃ x ∈ state, x.id = l.id
    · rw [if_pos hg]; exact hn
    · rw [if_neg hg]
      simp only [List.map_cons, List.nodup_cons]
      refine ⟨?_, hn⟩
      intro hmem
      rcases List.mem_map.mp hmem with ⟨y, hy, hye⟩
      exact hg ⟨y, hy, hye⟩
  · intro allLists state listId hn
    exact nodup_map_filter hn
  · intro allLists state listId l hn
    simp only [optimisticListsReducer]
    by_cases hg : ∃ x ∈ state, x.id = l.id
    · rw [if_pos hg]; exact hn
    · rw [if_neg hg]
      have hfree : l.id ∉ state.map ShoppingListData.id := by
        intro hmem
        rcases List.mem_map.mp hmem with ⟨y, hy, hye⟩
        exact hg ⟨y, hy, hye⟩
      cases hfind : jsFindIndex (fun x => x.id = listId) allLists with
      | none =>
        simp only [List.map_append, List.map_cons, List.map_nil]
        exact nodup_append_singleton hn hfree
      | some idx =>
        have hperm :
            List.Perm ((insertAt idx l state).map ShoppingListData.id)
              (l.id :: state.map ShoppingListData.id) := by
          simpa using (insertAt_perm idx l state).map ShoppingListData.id
        exact hperm.nodup_iff.mpr (List.nodup_cons.mpr ⟨hfree, hn⟩)
  · intro allLists state listId l hn
    simp only [optimisticListsReducer]
    rw [map_ids_of_id_preserved]
    · exact hn
    · intro x hx
      by_cases h : x.id = listId <;> simp [h]
  · intro allLists state listId l hn hno
    simp only [optimisticListsReducer]
    exact nodup_replace_ids state listId l hn hno
  · intro state itemId hn
    simp only [optimisticItemsReducer]
    rw [map_ids_of_id_preserved]
    · exact hn
    · intro x hx
      by_cases h : x.id = itemId <;> simp [h]
  · intro state itemId nameOpt hn
    simp only [optimisticItemsReducer]
    rw [map_ids_of_id_preserved]
    · exact hn
    · intro x hx
      by_cases h : x.id = itemId <;> simp [h]
  · intro state itemId hn
    exact nodup_map_filter hn
  · intro state itemId nameOpt hn hfresh
    simp only [optimisticItemsReducer, List.map_append, List.map_cons,
      List.map_nil]
    refine nodup_append_singleton hn ?_
    intro hmem
    rcases List.mem_map.mp hmem with ⟨y, hy, hye⟩
    exact hfresh y hy hye
  · intro state u hn hfresh
    simp only [optimisticSharedWithReducer]
    by_cases hg : ∃ x ∈ state, x.email = u.email
    · rw [if_pos hg]; exact hn
    · rw [if_neg hg]
      simp only [List.map_append, List.map_cons, List.map_nil]
      refine nodup_append_singleton hn ?_
      intro hmem
      rcases List.mem_map.mp hmem with ⟨y, hy, hye⟩
      exact hfresh y hy hye
  · intro state u hn
    exact nodup_map_filter hn
  · intro allLists state tempId l hne x hx
    rcases List.mem_map.mp hx with ⟨y, hy, hyf⟩
    by_cases hyt : y.id = tempId
    · rw [← hyf, if_pos hyt]
      exact hne
    · rw [← hyf, if_neg hyt]
      exact hyt

/-- C6 witness: adding an item under a fresh id to a duplicate-free
collection keeps its ids pairwise distinct. -/
theorem claim_C6_witness :
    ((optimisticItemsReducer [demoItemA] (.add "b" (some "Eggs"))).map
        Item.id).Nodup :=
  claim_C6_unique_ids_invariant.2.2.2.2.2.2.2.2.1 [demoItemA] "b"
    (some "Eggs") (by decide) (by decide)

/-- C4 counterexample: the item and share tentative ids embed only the
millisecond clock, so two distinct generation events in the same
millisecond — e.g. a rapid pair of user actions — produce the *same*
tentative id, refuting session-wide distinctness as stated. -/
theorem claim_C4_counterexample :
    (GenEvent.itemAdd 1000 ≠ GenEvent.shareInvite 1000)
      ∧ ¬ (sessionTempIds [.itemAdd 1000, .shareInvite 1000]).Nodup :=
  ⟨by decide, by decide⟩

/-- C4 amended.  Item and shared-user tentative ids are injective in the
millisecond timestamp (distinct whenever the clock readings differ, and
equal across the two generators at the same reading); list tentative ids
are injective in the drawn UUID; every tentative id carries the reserved
`temp-` prefix, which classifies it as pending and separates it from any
authoritative id (modelled from the spec as an id outside the `temp-`
namespace). -/
theorem claim_C4_temp_id_properties :
    (∀ (m n : Nat), m ≠ n → tempItemIdOf m ≠ tempItemIdOf n)
    ∧ (∀ (m n : Nat), m ≠ n → tempShareIdOf m ≠ tempShareIdOf n)
    ∧ (∀ (u v : String), u ≠ v → tempListIdOf u ≠ tempListIdOf v)
    ∧ (∀ (m : Nat), tempItemIdOf m = tempShareIdOf m)
    ∧ (∀ (e : GenEvent), isPendingId (genTempId e))
    ∧ (∀ (e : GenEvent) (id : String),
        isAuthoritativeId id → genTempId e ≠ id) := by
  have hpend : ∀ (e : GenEvent), isPendingId (genTempId e) := by
    intro e
    cases e <;> exact ⟨_, rfl⟩
  refine ⟨?_, ?_, ?_, fun m => rfl, hpend, ?_⟩
  · intro m n h he
    exact h (natRepr_injective (string_append_left_cancel he))
  · intro m n h he
    exact h (natRepr_injective (string_append_left_cancel he))
  · intro u v h he
    exact h (string_append_left_cancel he)
  · intro e id hauth heq
    exact hauth (heq ▸ hpend e)

/-- C4 witness: distinct milliseconds give distinct item temp ids, and a
generated list temp id is classified as pending. -/
theorem claim_C4_witness :
    tempItemIdOf 1000 ≠ tempItemIdOf 1001
      ∧ isPendingId (genTempId (.listCreate "u-77")) :=
  ⟨claim_C4_temp_id_properties.1 1000 1001 (by decide),
   claim_C4_temp_id_properties.2.2.2.2.1 (.listCreate "u-77")⟩

end ShopSpec
